import Mathlib

/-!
Verification development for the spark-id identifier library
(`src/lib/secure-id.ts`, `src/types.ts`).

Modelling conventions:
* JavaScript strings are `List Char`; the ASCII case maps `toLowerCase` /
  `toUpperCase` are `Char.toLower` / `Char.toUpper` (the library's alphabets,
  prefixes and separators are ASCII).
* The `separator` configuration value is modelled as a single character
  (the default is `'_'`); `String.prototype.split` with a one-character
  separator is `splitChar` below.
* Machine integers: the encoder's `value` accumulator is a JavaScript 32-bit
  integer, modelled as a `Nat` reduced `% 2 ^ 32` at the shift; the masked
  extractions `(value >>> k) & 31` and `(value << k) & 31` read only low bits,
  so the signed/unsigned distinction is immaterial.
* The platform CSPRNG (`crypto.randomBytes`) is an external collaborator,
  passed in as a function `rb : Nat → List Nat` returning the bytes drawn;
  theorems hypothesise `(rb n).length = n`.
* Fallible code returns `Except SparkIdErr`; thrown errors are `.error`.
* Optional TypeScript fields are `Option`; `a ?? b` is `a <|> b` on `Option`
  (both `undefined` and an absent key are `none`).
-/

deriving instance DecidableEq for Except

/-- `case?: 'upper' | 'lower' | 'mixed'` from `SparkIdConfig`. -/
inductive CaseSetting where
  | upper
  | lower
  | mixed
deriving DecidableEq, Repr

/-- `encoding?: 'base32' | 'base64' | 'hex' | 'custom'` from `SparkIdConfig`. -/
inductive EncodingKind where
  | base32
  | base64
  | hex
  | custom
deriving DecidableEq, Repr

/-- `SparkIdConfig` from `src/types.ts`: every field is optional. A partial
per-call config and the global config are the same shape. The TypeScript
`case` key is named `caseSetting` (`case` is reserved in Lean); `machineId`
is `string | number`. -/
structure SparkIdConfig where
  alphabet : Option (List Char) := none
  entropyBits : Option Nat := none
  idLength : Option Nat := none
  maxPrefixLength : Option Nat := none
  separator : Option Char := none
  caseSetting : Option CaseSetting := none
  encoding : Option EncodingKind := none
  timestamp : Option Bool := none
  machineId : Option (List Char ⊕ Nat) := none
deriving DecidableEq, Repr

/-- The all-absent per-call configuration (an omitted `config?` argument). -/
def emptyConfig : SparkIdConfig := {}

/-- `DEFAULT_CONFIG` from `src/types.ts`. -/
def DEFAULT_CONFIG : SparkIdConfig where
  alphabet := some "yvndrfg9ejkmcpqxwt2uwxsza345h769".toList
  entropyBits := some 72
  idLength := none
  maxPrefixLength := some 20
  separator := some '_'
  caseSetting := some CaseSetting.upper
  encoding := some EncodingKind.base32
  timestamp := some false
  machineId := none

/-- The four distinct `InvalidIdError` reasons raised by `SecureId.parse`:
`'ID must be a string'`, `'ID cannot be empty'`, `'Invalid ID format'`,
`'ID contains too many separators'`. -/
inductive IdErrReason where
  | notAString
  | emptyId
  | invalidFormat
  | tooManySeparators
deriving DecidableEq, Repr

/-- The error taxonomy of `secure-id.ts` restricted to what the modelled
operations can throw: `InvalidPrefixError` (`INVALID_PREFIX`, embeds the
offending prefix), `InvalidIdError` (`INVALID_ID`, with its reason text), and
the `SparkIdError` with code `INVALID_ALPHABET` whose message carries the
observed alphabet length. -/
inductive SparkIdErr where
  | invalidPrefixError (pfx : List Char)
  | invalidIdError (reason : IdErrReason)
  | invalidAlphabet (observedLength : Nat)
deriving DecidableEq, Repr

/-- `SecureId.getConfigValue(key, localConfig)`:
`localConfig?.[key] ?? SecureId.globalConfig[key] ?? DEFAULT_CONFIG[key]`,
applied independently per key. -/
def getConfigValue {α : Type} (localVal globalVal defaultVal : Option α) :
    Option α :=
  localVal <|> globalVal <|> defaultVal

/-- Resolved `entropyBits` with the call sites' final `?? 72` fallback. -/
def resolvedEntropyBits (g cfg : SparkIdConfig) : Nat :=
  (getConfigValue cfg.entropyBits g.entropyBits DEFAULT_CONFIG.entropyBits).getD 72

/-- Resolved `alphabet` with the call sites' final fallback to the z-base-32
string literal. -/
def resolvedAlphabet (g cfg : SparkIdConfig) : List Char :=
  (getConfigValue cfg.alphabet g.alphabet DEFAULT_CONFIG.alphabet).getD
    "yvndrfg9ejkmcpqxwt2uwxsza345h769".toList

/-- Resolved `case` with the call sites' final `?? 'upper'` fallback. -/
def resolvedCase (g cfg : SparkIdConfig) : CaseSetting :=
  (getConfigValue cfg.caseSetting g.caseSetting DEFAULT_CONFIG.caseSetting).getD
    CaseSetting.upper

/-- Resolved `separator` with the call sites' final fallback to `'_'`. -/
def resolvedSeparator (g cfg : SparkIdConfig) : Char :=
  (getConfigValue cfg.separator g.separator DEFAULT_CONFIG.separator).getD '_'

/-- Resolved `maxPrefixLength` with the call site's final `?? 20` fallback. -/
def resolvedMaxPrefixLength (g cfg : SparkIdConfig) : Nat :=
  (getConfigValue cfg.maxPrefixLength g.maxPrefixLength
    DEFAULT_CONFIG.maxPrefixLength).getD 20

/-- The case transform applied by `generateRaw` to the encoded string and by
`generate` / the constructor to the prefix: `'upper'` → `toUpperCase`,
`'lower'` → `toLowerCase`, `'mixed'` → left as-is (the `default:` switch arm,
unreachable for a well-typed setting, also upper-cases). -/
def applyCase : CaseSetting → List Char → List Char
  | CaseSetting.upper, s => s.map Char.toUpper
  | CaseSetting.lower, s => s.map Char.toLower
  | CaseSetting.mixed, s => s

/-- One character of `^[a-zA-Z0-9_]+$` (the `PREFIX_REGEX`). -/
def isWordChar (c : Char) : Bool :=
  ('a' ≤ c && c ≤ 'z') || ('A' ≤ c && c ≤ 'Z') || ('0' ≤ c && c ≤ '9') || c = '_'

/-- `SecureId.isValidPrefix`: non-empty, length ≤ resolved `maxPrefixLength`,
and matching `^[a-zA-Z0-9_]+$`. -/
def isValidPrefixB (g cfg : SparkIdConfig) (p : List Char) : Bool :=
  if p.length = 0 || p.length > resolvedMaxPrefixLength g cfg then false
  else p.all isWordChar

/-- The inner `while (bits >= 5)` loop of `base32Encode`: as long as at least
5 bits are pending, append `alphabet[(value >>> (bits - 5)) & 31]` and drop
5 bits. The loop runs `bits / 5` times; `fuel` is a structural bound on the
iteration count (callers pass `fuel := bits`, which always suffices since
each iteration consumes 5 bits). The list index is masked below 32, so the
`getD` default is never read when the alphabet has 32 characters. -/
def drainBits (alphabet : List Char) (value : Nat) :
    Nat → Nat → List Char → List Char × Nat
  | 0, bits, acc => (acc, bits)
  | fuel + 1, bits, acc =>
    if bits ≥ 5 then
      drainBits alphabet value fuel (bits - 5)
        (acc ++ [alphabet.getD ((value >>> (bits - 5)) &&& 31) '*'])
    else (acc, bits)

/-- The `for` loop of `base32Encode` over the buffer, followed by the final
`if (bits > 0)` partial-group character `alphabet[(value << (5 - bits)) & 31]`.
`value` is a JavaScript 32-bit integer, hence the `% 2 ^ 32`. -/
def encodeLoop (alphabet : List Char) :
    List Nat → Nat → Nat → List Char → List Char
  | [], value, bits, acc =>
    if bits > 0 then
      acc ++ [alphabet.getD (((value <<< (5 - bits)) % 2 ^ 32) &&& 31) '*']
    else acc
  | b :: rest, value, bits, acc =>
    let v := ((value <<< 8) % 2 ^ 32) ||| b
    let st := drainBits alphabet v (bits + 8) (bits + 8) acc
    encodeLoop alphabet rest v st.2 st.1

/-- `SecureId.base32Encode(buffer, alphabet)`: throws `INVALID_ALPHABET`
(carrying the observed length) unless the alphabet has exactly 32 characters,
then packs the bytes 5 bits per character, most significant bits first. -/
def base32Encode (buffer : List Nat) (alphabet : List Char) :
    Except SparkIdErr (List Char) :=
  if alphabet.length ≠ 32 then
    Except.error (SparkIdErr.invalidAlphabet alphabet.length)
  else
    Except.ok (encodeLoop alphabet buffer 0 0 [])

/-- `SecureId.generateRaw(config)`: resolve `entropyBits`, `alphabet` and
`case`, draw `Math.ceil(entropyBits / 8)` bytes from the CSPRNG `rb`,
base32-encode them and apply the case setting. -/
def generateRaw (rb : Nat → List Nat) (g cfg : SparkIdConfig) :
    Except SparkIdErr (List Char) :=
  let entropyBits := resolvedEntropyBits g cfg
  let alphabet := resolvedAlphabet g cfg
  let caseSetting := resolvedCase g cfg
  let bytesLength := (entropyBits + 7) / 8
  let bytes := rb bytesLength
  match base32Encode bytes alphabet with
  | Except.error e => Except.error e
  | Except.ok encoded => Except.ok (applyCase caseSetting encoded)

/-- `SecureId.isValidRawId(rawId, config)`: false for the empty string,
false when the length is outside `[floor(entropyBits / 5),
ceil(entropyBits / 5)]`, else every character must lower-case into the
resolved alphabet (`alphabet.includes(char.toLowerCase())`). -/
def isValidRawId (g cfg : SparkIdConfig) (rawId : List Char) : Bool :=
  if rawId.length = 0 then false
  else
    let alphabet := resolvedAlphabet g cfg
    let entropyBits := resolvedEntropyBits g cfg
    let minLength := entropyBits / 5
    let maxLength := (entropyBits + 4) / 5
    if rawId.length < minLength || rawId.length > maxLength then false
    else rawId.all (fun c => alphabet.contains c.toLower)

/-- `SecureId.generate(prefix, config)`: validate a supplied prefix (failing
fast with `InvalidPrefixError`), generate the raw id, then attach the
case-transformed prefix with the resolved separator. A falsy (empty) prefix
attaches nothing, but an empty supplied prefix is already rejected by the
validation step. -/
def generate (rb : Nat → List Nat) (g cfg : SparkIdConfig)
    (pfx : Option (List Char)) : Except SparkIdErr (List Char) :=
  match pfx with
  | some p =>
    if isValidPrefixB g cfg p then
      match generateRaw rb g cfg with
      | Except.error e => Except.error e
      | Except.ok rawId =>
        let sep := resolvedSeparator g cfg
        let caseSetting := resolvedCase g cfg
        if p.length = 0 then Except.ok rawId
        else Except.ok (applyCase caseSetting p ++ sep :: rawId)
    else Except.error (SparkIdErr.invalidPrefixError p)
  | none =>
    match generateRaw rb g cfg with
    | Except.error e => Except.error e
    | Except.ok rawId => Except.ok rawId

/-- `String.prototype.split` with a one-character separator: `splitChar sep s`
is the list of (possibly empty) chunks of `s` between occurrences of `sep`.
`splitChar sep [] = [[]]`, matching `''.split(sep) === ['']`. -/
def splitChar (sep : Char) : List Char → List (List Char)
  | [] => [[]]
  | c :: cs =>
    match splitChar sep cs with
    | [] => [[c]]
    | p :: ps => if c = sep then [] :: p :: ps else (c :: p) :: ps

/-- The dynamic argument of `SecureId.parse`: a string, or a non-string value
(rejected by the `typeof idString !== 'string'` guard). -/
inductive JsValue where
  | str (s : List Char)
  | nonString
deriving DecidableEq, Repr

/-- The `{prefix?, id, full}` result shape of `SecureId.parse` (`ParsedId`
in `src/types.ts`); the `prefix` key is `pfx` here. -/
structure ParsedId where
  pfx : Option (List Char)
  id : List Char
  full : List Char
deriving DecidableEq, Repr

/-- `SecureId.parse(idString, config)`: reject non-strings and the empty
string with distinct reasons, split on the resolved separator; one part is a
bare raw id, two parts are `prefix + separator + id` (the prefix is not
checked against the prefix regex), three or more parts throw
`'ID contains too many separators'`. The raw part must pass `isValidRawId`.
The impossible zero-part split falls through to the final throw, as in the
source. -/
def parse (g cfg : SparkIdConfig) (input : JsValue) :
    Except SparkIdErr ParsedId :=
  match input with
  | JsValue.nonString => Except.error (SparkIdErr.invalidIdError IdErrReason.notAString)
  | JsValue.str s =>
    if s.length = 0 then Except.error (SparkIdErr.invalidIdError IdErrReason.emptyId)
    else
      let sep := resolvedSeparator g cfg
      match splitChar sep s with
      | [theId] =>
        if isValidRawId g cfg theId then
          Except.ok { pfx := none, id := theId, full := theId }
        else Except.error (SparkIdErr.invalidIdError IdErrReason.invalidFormat)
      | [p, theId] =>
        if isValidRawId g cfg theId then
          Except.ok { pfx := some p, id := theId, full := s }
        else Except.error (SparkIdErr.invalidIdError IdErrReason.invalidFormat)
      | _ => Except.error (SparkIdErr.invalidIdError IdErrReason.tooManySeparators)

/-- `SecureId.isValid(idString, config)`: `parse` then `isValidRawId` on the
parsed `id`; any parse error yields `false`. -/
def isValid (g cfg : SparkIdConfig) (input : JsValue) : Bool :=
  match parse g cfg input with
  | Except.ok parsed => isValidRawId g cfg parsed.id
  | Except.error _ => false

/-- The public shape of a constructed `SecureId` instance:
`{id, prefix?, full}` (the `prefix` field is `pfx` here). -/
structure SecureIdObj where
  id : List Char
  pfx : Option (List Char)
  full : List Char
deriving DecidableEq, Repr

/-- The constructor body after prefix validation: format a truthy prefix per
the case setting, take the supplied id unless it is falsy (absent or empty,
in which case `generateRaw` runs), and assemble `full`. -/
def secureIdMkBody (rb : Nat → List Nat) (g cfg : SparkIdConfig)
    (idArg : Option (List Char)) (pfx : Option (List Char)) :
    Except SparkIdErr SecureIdObj :=
  let sep := resolvedSeparator g cfg
  let caseSetting := resolvedCase g cfg
  let formatted : Option (List Char) :=
    match pfx with
    | some p => if p.length = 0 then none else some (applyCase caseSetting p)
    | none => none
  let idResult : Except SparkIdErr (List Char) :=
    match idArg with
    | some l => if l.length = 0 then generateRaw rb g cfg else Except.ok l
    | none => generateRaw rb g cfg
  match idResult with
  | Except.error e => Except.error e
  | Except.ok theId =>
    match formatted with
    | some f => Except.ok { id := theId, pfx := some f, full := f ++ sep :: theId }
    | none => Except.ok { id := theId, pfx := none, full := theId }

/-- The `SecureId` constructor `new SecureId(id?, prefix?, config?)`: validate
a supplied prefix, case-transform a truthy prefix, and set
`this.id = id || SecureId.generateRaw(config)` — an omitted or empty supplied
id generates a fresh raw id. `full` is `prefix + separator + id` when a
truthy formatted prefix exists, else `id`. -/
def secureIdMk (rb : Nat → List Nat) (g cfg : SparkIdConfig)
    (idArg : Option (List Char)) (pfx : Option (List Char)) :
    Except SparkIdErr SecureIdObj :=
  match pfx with
  | some p =>
    if isValidPrefixB g cfg p then
      secureIdMkBody rb g cfg idArg (some p)
    else Except.error (SparkIdErr.invalidPrefixError p)
  | none => secureIdMkBody rb g cfg idArg none

/-- `SecureId.configure(config)`: shallow-merge the partial config over the
global one (`{...globalConfig, ...config}`), key by key. -/
def configure (g cfg : SparkIdConfig) : SparkIdConfig where
  alphabet := cfg.alphabet <|> g.alphabet
  entropyBits := cfg.entropyBits <|> g.entropyBits
  idLength := cfg.idLength <|> g.idLength
  maxPrefixLength := cfg.maxPrefixLength <|> g.maxPrefixLength
  separator := cfg.separator <|> g.separator
  caseSetting := cfg.caseSetting <|> g.caseSetting
  encoding := cfg.encoding <|> g.encoding
  timestamp := cfg.timestamp <|> g.timestamp
  machineId := cfg.machineId <|> g.machineId

/-- `SecureId.getConfig()`: returns a copy of the global configuration. -/
def getConfig (g : SparkIdConfig) : SparkIdConfig := g

/-- `SecureId.resetConfig()`: restore `DEFAULT_CONFIG`. -/
def resetConfig : SparkIdConfig := DEFAULT_CONFIG

/-- State-passing form of `SecureId.generate`: the method reads the global
configuration and never assigns it, so the state component is returned
unchanged. -/
def generateS (rb : Nat → List Nat) (g : SparkIdConfig)
    (pfx : Option (List Char)) (cfg : SparkIdConfig) :
    Except SparkIdErr (List Char) × SparkIdConfig :=
  (generate rb g cfg pfx, g)

/-- State-passing form of `SecureId.parse` (reads, never writes, the global
configuration). -/
def parseS (g : SparkIdConfig) (input : JsValue) (cfg : SparkIdConfig) :
    Except SparkIdErr ParsedId × SparkIdConfig :=
  (parse g cfg input, g)

/-- State-passing form of `SecureId.isValidRawId` (reads, never writes, the
global configuration). -/
def isValidRawIdS (g : SparkIdConfig) (rawId : List Char)
    (cfg : SparkIdConfig) : Bool × SparkIdConfig :=
  (isValidRawId g cfg rawId, g)

/-- An all-zero outcome of the random byte source, used for concrete
evaluations: `rbZero n` is `n` zero bytes. -/
def rbZero (n : Nat) : List Nat := List.replicate n 0

/-! ### Helper lemmas about the codec loops -/

theorem char_toNat_ofNat_valid (n : Nat) (h : n.isValidChar) :
    (Char.ofNat n).toNat = n := by
  simp [Char.ofNat, h]
  rfl

/-- A character fixed by `toLower` (no upper-case ASCII letter) returns to
itself after an upper-case round trip. -/
theorem toLower_toUpper_fixed (c : Char) (h : c.toLower = c) :
    (Char.toUpper c).toLower = c := by
  unfold Char.toUpper
  by_cases hc : c.toNat ≥ 97 ∧ c.toNat ≤ 122
  · rw [if_pos hc]
    have hv : (c.toNat - 32).isValidChar := Or.inl (by omega)
    unfold Char.toLower
    rw [char_toNat_ofNat_valid _ hv]
    rw [if_pos (by omega : c.toNat - 32 ≥ 65 ∧ c.toNat - 32 ≤ 90)]
    have he : c.toNat - 32 + 32 = c.toNat := by omega
    rw [he, Char.ofNat_toNat]
  · rw [if_neg hc]
    exact h

theorem drainBits_spec (A : List Char) (v : Nat) :
    ∀ (fuel bits : Nat) (acc : List Char), bits ≤ 5 * fuel + 4 →
      (drainBits A v fuel bits acc).2 = bits % 5 ∧
      (drainBits A v fuel bits acc).1.length = acc.length + bits / 5 := by
  intro fuel
  induction fuel with
  | zero =>
    intro bits acc h
    have h5 : ¬ bits ≥ 5 := by omega
    simp [drainBits, h5]
    omega
  | succ n ih =>
    intro bits acc h
    by_cases h5 : bits ≥ 5
    · simp only [drainBits, if_pos h5]
      obtain ⟨h1, h2⟩ := ih (bits - 5) _ (by omega)
      refine ⟨by rw [h1]; omega, ?_⟩
      rw [h2]
      simp
      omega
    · simp [drainBits, h5]
      omega

theorem drainBits_mem (A : List Char) (v : Nat) (hA : A.length = 32) :
    ∀ (fuel bits : Nat) (acc : List Char) (c : Char),
      c ∈ (drainBits A v fuel bits acc).1 → c ∈ acc ∨ c ∈ A := by
  intro fuel
  induction fuel with
  | zero =>
    intro bits acc c hc
    simp [drainBits] at hc
    exact Or.inl hc
  | succ n ih =>
    intro bits acc c hc
    by_cases h5 : bits ≥ 5
    · simp only [drainBits, if_pos h5] at hc
      rcases ih _ _ _ hc with h | h
      · rcases List.mem_append.1 h with h' | h'
        · exact Or.inl h'
        · right
          have hidx : (v >>> (bits - 5)) &&& 31 < A.length := by
            have := Nat.and_le_right (n := v >>> (bits - 5)) (m := 31)
            omega
          rw [List.mem_singleton] at h'
          rw [h', List.getD_eq_getElem A '*' hidx]
          exact List.getElem_mem hidx
      · exact Or.inr h
    · simp [drainBits, h5] at hc
      exact Or.inl hc

theorem encodeLoop_length (A : List Char) :
    ∀ (buf : List Nat) (v bits : Nat) (acc : List Char), bits ≤ 4 →
      (encodeLoop A buf v bits acc).length =
        acc.length + (8 * buf.length + bits + 4) / 5 := by
  intro buf
  induction buf with
  | nil =>
    intro v bits acc h
    by_cases hb : bits > 0 <;> simp [encodeLoop, hb] <;> omega
  | cons b rest ih =>
    intro v bits acc h
    simp only [encodeLoop]
    obtain ⟨h2, h1⟩ :=
      drainBits_spec A (((v <<< 8) % 2 ^ 32) ||| b) (bits + 8) (bits + 8) acc (by omega)
    rw [ih _ _ _ (by rw [h2]; omega)]
    rw [h1, h2]
    simp
    omega

theorem encodeLoop_mem (A : List Char) (hA : A.length = 32) :
    ∀ (buf : List Nat) (v bits : Nat) (acc : List Char) (c : Char),
      c ∈ encodeLoop A buf v bits acc → c ∈ acc ∨ c ∈ A := by
  intro buf
  induction buf with
  | nil =>
    intro v bits acc c hc
    by_cases hb : bits > 0
    · simp only [encodeLoop, if_pos hb] at hc
      rcases List.mem_append.1 hc with h | h
      · exact Or.inl h
      · right
        have hidx : ((v <<< (5 - bits)) % 2 ^ 32) &&& 31 < A.length := by
          have := Nat.and_le_right (n := (v <<< (5 - bits)) % 2 ^ 32) (m := 31)
          omega
        rw [List.mem_singleton] at h
        rw [h, List.getD_eq_getElem A '*' hidx]
        exact List.getElem_mem hidx
    · simp [encodeLoop, hb] at hc
      exact Or.inl hc
  | cons b rest ih =>
    intro v bits acc c hc
    simp only [encodeLoop] at hc
    rcases ih _ _ _ _ hc with h | h
    · exact drainBits_mem A _ hA _ _ _ _ h
    · exact Or.inr h

/-! ### Helper lemmas about splitting and case mapping -/

theorem splitChar_ne_nil (sep : Char) (s : List Char) : splitChar sep s ≠ [] := by
  induction s with
  | nil => simp [splitChar]
  | cons c cs ih =>
    cases h : splitChar sep cs with
    | nil => exact absurd h ih
    | cons p ps =>
      simp only [splitChar, h]
      by_cases hc : c = sep <;> simp [hc]

theorem splitChar_of_not_mem (sep : Char) (s : List Char) (h : sep ∉ s) :
    splitChar sep s = [s] := by
  induction s with
  | nil => rfl
  | cons c cs ih =>
    have hc : c ≠ sep := fun he => h (he ▸ List.mem_cons_self c cs)
    have hcs : sep ∉ cs := fun hm => h (List.mem_cons_of_mem c hm)
    simp only [splitChar, ih hcs]
    simp [hc]

theorem splitChar_singleton (sep : Char) (s p : List Char)
    (h : splitChar sep s = [p]) : p = s := by
  induction s generalizing p with
  | nil =>
    simp [splitChar] at h
    exact h
  | cons c cs ih =>
    cases hcs : splitChar sep cs with
    | nil => exact absurd hcs (splitChar_ne_nil sep cs)
    | cons q qs =>
      simp only [splitChar, hcs] at h
      by_cases hc : c = sep
      · rw [if_pos hc] at h
        simp at h
      · rw [if_neg hc] at h
        cases qs with
        | cons _ _ => simp at h
        | nil =>
          simp only [List.cons.injEq, and_true] at h
          rw [← h]
          have hq : q = cs := ih q (by rw [hcs])
          rw [hq]

theorem splitChar_prepend (sep : Char) (p q : List Char) (hp : sep ∉ p) :
    splitChar sep (p ++ sep :: q) = p :: splitChar sep q := by
  induction p with
  | nil =>
    cases hq : splitChar sep q with
    | nil => exact absurd hq (splitChar_ne_nil sep q)
    | cons r rs => simp [splitChar, hq]
  | cons c cs ih =>
    have hc : c ≠ sep := fun he => hp (he ▸ List.mem_cons_self c cs)
    have hcs : sep ∉ cs := fun hm => hp (List.mem_cons_of_mem c hm)
    rw [List.cons_append]
    simp only [splitChar]
    rw [ih hcs]
    simp [hc]

theorem splitChar_pair (sep : Char) (p q : List Char) (hp : sep ∉ p)
    (hq : sep ∉ q) : splitChar sep (p ++ sep :: q) = [p, q] := by
  rw [splitChar_prepend sep p q hp, splitChar_of_not_mem sep q hq]

theorem applyCase_length (cs : CaseSetting) (s : List Char) :
    (applyCase cs s).length = s.length := by
  cases cs <;> simp [applyCase]

/-- Every character of a case-transformed string over an alphabet of
`toLower`-fixed characters lower-cases back into the alphabet. -/
theorem applyCase_toLower_mem (A : List Char) (cs : CaseSetting)
    (s : List Char) (hfix : ∀ a ∈ A, a.toLower = a) (hs : ∀ c ∈ s, c ∈ A) :
    ∀ c ∈ applyCase cs s, c.toLower ∈ A := by
  intro c hc
  cases cs with
  | upper =>
    simp only [applyCase] at hc
    rcases List.mem_map.1 hc with ⟨a, ha, rfl⟩
    rw [toLower_toUpper_fixed a (hfix a (hs a ha))]
    exact hs a ha
  | lower =>
    simp only [applyCase] at hc
    rcases List.mem_map.1 hc with ⟨a, ha, rfl⟩
    rw [hfix a (hs a ha), hfix a (hs a ha)]
    exact hs a ha
  | mixed =>
    simp only [applyCase] at hc
    rw [hfix c (hs c hc)]
    exact hs c hc

/-! ### Helper lemmas about generation and validation -/

theorem generateRaw_eq (rb : Nat → List Nat) (g cfg : SparkIdConfig)
    (hA : (resolvedAlphabet g cfg).length = 32) :
    generateRaw rb g cfg =
      Except.ok (applyCase (resolvedCase g cfg)
        (encodeLoop (resolvedAlphabet g cfg)
          (rb ((resolvedEntropyBits g cfg + 7) / 8)) 0 0 [])) := by
  simp [generateRaw, base32Encode, hA]

/-- `generateRaw` under a 32-character alphabet: it succeeds and returns the
case transform of an encoded string whose length is
`ceil(8 * ceil(entropyBits / 8) / 5)` and whose characters all come from the
alphabet. -/
theorem generateRaw_spec (rb : Nat → List Nat) (g cfg : SparkIdConfig)
    (hrb : (rb ((resolvedEntropyBits g cfg + 7) / 8)).length =
      (resolvedEntropyBits g cfg + 7) / 8)
    (hA : (resolvedAlphabet g cfg).length = 32) :
    ∃ enc, generateRaw rb g cfg =
        Except.ok (applyCase (resolvedCase g cfg) enc) ∧
      enc.length = (8 * ((resolvedEntropyBits g cfg + 7) / 8) + 4) / 5 ∧
      ∀ c ∈ enc, c ∈ resolvedAlphabet g cfg := by
  refine ⟨_, generateRaw_eq rb g cfg hA, ?_, ?_⟩
  · rw [encodeLoop_length _ _ _ _ _ (by omega)]
    rw [hrb]
    simp
  · intro c hc
    rcases encodeLoop_mem _ hA _ _ _ _ _ hc with h | h
    · simp at h
    · exact h

theorem isValidRawId_eq_true (g cfg : SparkIdConfig) (s : List Char)
    (h0 : ¬ s.length = 0)
    (hmin : resolvedEntropyBits g cfg / 5 ≤ s.length)
    (hmax : s.length ≤ (resolvedEntropyBits g cfg + 4) / 5)
    (hmem : ∀ c ∈ s, c.toLower ∈ resolvedAlphabet g cfg) :
    isValidRawId g cfg s = true := by
  simp only [isValidRawId, if_neg h0]
  have h1 : ¬ ((s.length < resolvedEntropyBits g cfg / 5 ||
      s.length > (resolvedEntropyBits g cfg + 4) / 5) = true) := by
    simp
    omega
  rw [if_neg h1]
  rw [List.all_eq_true]
  intro c hc
  simpa using hmem c hc

/-- A prefix accepted by `isValidPrefix` is non-empty. -/
theorem isValidPrefixB_ne_nil (g cfg : SparkIdConfig) (p : List Char)
    (hp : isValidPrefixB g cfg p = true) : p.length ≠ 0 := by
  intro h0
  simp [isValidPrefixB, h0] at hp

/-! ### Claim theorems -/

/-- C1, counterexample: the round-trip `isValidRawId(generateRaw(config),
config) = true` fails for configurations the generator accepts. With
`entropyBits = 1` the generator emits a 2-character id that its own validator
rejects (the length window is `[0, 1]`); with a 40-bit entropy and an
upper-case 32-character alphabet the validator rejects every generated
character, because membership is tested on the lower-cased character against
the alphabet as written. -/
theorem c1_counterexample :
    (generateRaw rbZero DEFAULT_CONFIG { entropyBits := some 1 } =
        Except.ok ['Y', 'Y'] ∧
      isValidRawId DEFAULT_CONFIG { entropyBits := some 1 } ['Y', 'Y'] = false) ∧
    (generateRaw rbZero DEFAULT_CONFIG
        { alphabet := some "ABCDEFGHIJKLMNOPQRSTUVWXYZ234567".toList,
          entropyBits := some 40 } =
        Except.ok (List.replicate 8 'A') ∧
      isValidRawId DEFAULT_CONFIG
        { alphabet := some "ABCDEFGHIJKLMNOPQRSTUVWXYZ234567".toList,
          entropyBits := some 40 }
        (List.replicate 8 'A') = false) := by
  decide

/-- C1, amended: for every configuration whose resolved `entropyBits` is a
positive multiple of 8 and whose resolved alphabet has exactly 32 characters,
none of them an upper-case letter (fixed by `toLower`), and every outcome of
the random byte source, `generateRaw` succeeds and its result satisfies
`isValidRawId`. -/
theorem c1_roundtrip (g cfg : SparkIdConfig) (rb : Nat → List Nat)
    (hrb : ∀ n, (rb n).length = n)
    (hpos : 0 < resolvedEntropyBits g cfg)
    (hdvd : 8 ∣ resolvedEntropyBits g cfg)
    (hA : (resolvedAlphabet g cfg).length = 32)
    (hfix : ∀ a ∈ resolvedAlphabet g cfg, a.toLower = a) :
    ∃ s, generateRaw rb g cfg = Except.ok s ∧ isValidRawId g cfg s = true := by
  obtain ⟨enc, heq, hlen, hmem⟩ := generateRaw_spec rb g cfg (hrb _) hA
  obtain ⟨k, hk⟩ := hdvd
  refine ⟨_, heq, isValidRawId_eq_true g cfg _ ?_ ?_ ?_ ?_⟩
  · rw [applyCase_length, hlen]
    omega
  · rw [applyCase_length, hlen]
    omega
  · rw [applyCase_length, hlen]
    omega
  · exact applyCase_toLower_mem _ _ _ hfix hmem

/-- C1, witness: the default configuration (72 entropy bits, the 32-character
default alphabet, upper case) with the all-zero byte source round-trips. -/
theorem c1_roundtrip_witness :
    ∃ s, generateRaw rbZero DEFAULT_CONFIG emptyConfig = Except.ok s ∧
      isValidRawId DEFAULT_CONFIG emptyConfig s = true :=
  c1_roundtrip DEFAULT_CONFIG emptyConfig rbZero
    (fun n => by simp [rbZero]) (by decide) (by decide) (by decide) (by decide)

/-- C2: the default alphabet string `'yvndrfg9ejkmcpqxwt2uwxsza345h769'` has
32 characters but they are not pairwise distinct — `'w'` occurs at positions
16 and 20, `'x'` at 15 and 21, `'9'` at 7 and 31 — so the
position-to-symbol mapping is not injective (only 29 distinct symbols). The
claim (and the code's own documentation, which shows the true z-base-32
alphabet `'ybndrfg8ejkmcpqxot1uwisza345h769'`) asserts distinctness; the
shipped literal is a corrupted variant. -/
theorem c2_default_alphabet_duplicates :
    DEFAULT_CONFIG.alphabet = some "yvndrfg9ejkmcpqxwt2uwxsza345h769".toList ∧
    ("yvndrfg9ejkmcpqxwt2uwxsza345h769".toList).length = 32 ∧
    ¬ ("yvndrfg9ejkmcpqxwt2uwxsza345h769".toList).Nodup ∧
    ("yvndrfg9ejkmcpqxwt2uwxsza345h769".toList).getD 16 '*' = 'w' ∧
    ("yvndrfg9ejkmcpqxwt2uwxsza345h769".toList).getD 20 '*' = 'w' ∧
    ("yvndrfg9ejkmcpqxwt2uwxsza345h769".toList).getD 15 '*' = 'x' ∧
    ("yvndrfg9ejkmcpqxwt2uwxsza345h769".toList).getD 21 '*' = 'x' ∧
    (("yvndrfg9ejkmcpqxwt2uwxsza345h769".toList).dedup).length = 29 := by
  decide

/-- C3, counterexample: with resolved `entropyBits = 1` the generated raw id
has 2 characters, exceeding `ceil(entropyBits / 5) = 1`. -/
theorem c3_counterexample :
    generateRaw rbZero DEFAULT_CONFIG { entropyBits := some 1 } =
      Except.ok ['Y', 'Y'] ∧
    ¬ (['Y', 'Y'] : List Char).length ≤
      (resolvedEntropyBits DEFAULT_CONFIG { entropyBits := some 1 } + 4) / 5 := by
  decide

/-- C3, amended: when the resolved `entropyBits` is a multiple of 8 and the
resolved alphabet has 32 characters, the generated raw id's length lies in
`[floor(entropyBits / 5), ceil(entropyBits / 5)]` (it equals the ceiling). -/
theorem c3_length_bounds (g cfg : SparkIdConfig) (rb : Nat → List Nat)
    (hrb : ∀ n, (rb n).length = n)
    (hdvd : 8 ∣ resolvedEntropyBits g cfg)
    (hA : (resolvedAlphabet g cfg).length = 32) :
    ∃ s, generateRaw rb g cfg = Except.ok s ∧
      resolvedEntropyBits g cfg / 5 ≤ s.length ∧
      s.length ≤ (resolvedEntropyBits g cfg + 4) / 5 := by
  obtain ⟨enc, heq, hlen, hmem⟩ := generateRaw_spec rb g cfg (hrb _) hA
  obtain ⟨k, hk⟩ := hdvd
  refine ⟨_, heq, ?_, ?_⟩ <;> rw [applyCase_length, hlen] <;> omega

/-- C3, witness: the default configuration (72 entropy bits) with the
all-zero byte source produces an id of length between 14 and 15. -/
theorem c3_length_bounds_witness :
    ∃ s, generateRaw rbZero DEFAULT_CONFIG emptyConfig = Except.ok s ∧
      resolvedEntropyBits DEFAULT_CONFIG emptyConfig / 5 ≤ s.length ∧
      s.length ≤ (resolvedEntropyBits DEFAULT_CONFIG emptyConfig + 4) / 5 :=
  c3_length_bounds DEFAULT_CONFIG emptyConfig rbZero
    (fun n => by simp [rbZero]) (by decide) (by decide)

/-- C5: for every 32-character alphabet and every byte sequence,
`base32Encode` succeeds and returns exactly `ceil(8 * N / 5)` characters —
one per full 5-bit group plus one for a non-empty final partial group. -/
theorem c5_encode_length (buffer : List Nat) (alphabet : List Char)
    (hA : alphabet.length = 32) :
    ∃ s, base32Encode buffer alphabet = Except.ok s ∧
      s.length = (8 * buffer.length + 4) / 5 := by
  have he : base32Encode buffer alphabet =
      Except.ok (encodeLoop alphabet buffer 0 0 []) := by
    simp [base32Encode, hA]
  refine ⟨_, he, ?_⟩
  rw [encodeLoop_length alphabet buffer 0 0 [] (by omega)]
  simp

/-- C5, witness: encoding 2 bytes over the default alphabet yields
`ceil(16 / 5) = 4` characters. -/
theorem c5_encode_length_witness :
    ∃ s, base32Encode [255, 7] ("yvndrfg9ejkmcpqxwt2uwxsza345h769".toList) =
        Except.ok s ∧
      s.length = (8 * ([255, 7] : List Nat).length + 4) / 5 :=
  c5_encode_length [255, 7] _ (by decide)

/-- C4, counterexample: prefix round-trip fails for accepted inputs. The
prefix `'A_B'` passes prefix validation (underscores are word characters),
but the generated full id then contains two separators and `parse` throws
`'ID contains too many separators'`; likewise a configured separator that is
itself an alphabet character (`'y'`) makes `parse` fail on the generated id. -/
theorem c4_counterexample :
    (isValidPrefixB DEFAULT_CONFIG emptyConfig ['A', '_', 'B'] = true ∧
      generate rbZero DEFAULT_CONFIG emptyConfig (some ['A', '_', 'B']) =
        Except.ok (['A', '_', 'B', '_'] ++ List.replicate 15 'Y') ∧
      parse DEFAULT_CONFIG emptyConfig
        (JsValue.str (['A', '_', 'B', '_'] ++ List.replicate 15 'Y')) =
        Except.error (SparkIdErr.invalidIdError IdErrReason.tooManySeparators)) ∧
    (generate rbZero DEFAULT_CONFIG
        { separator := some 'y', entropyBits := some 40,
          caseSetting := some CaseSetting.mixed } (some ['Q']) =
        Except.ok ('Q' :: 'y' :: List.replicate 8 'y') ∧
      parse DEFAULT_CONFIG
        { separator := some 'y', entropyBits := some 40,
          caseSetting := some CaseSetting.mixed }
        (JsValue.str ('Q' :: 'y' :: List.replicate 8 'y')) =
        Except.error (SparkIdErr.invalidIdError IdErrReason.tooManySeparators)) := by
  decide

/-- C4, amended: for every valid prefix whose case-transformed form does not
contain the resolved separator, under a configuration whose resolved
separator does not lower-case into the 32-character, `toLower`-fixed
alphabet and whose resolved `entropyBits` is a positive multiple of 8,
`parse(generate(prefix))` succeeds, its prefix field is the case-transformed
prefix, and its id field passes `isValidRawId`. -/
theorem c4_prefix_roundtrip (g cfg : SparkIdConfig) (rb : Nat → List Nat)
    (p : List Char)
    (hrb : ∀ n, (rb n).length = n)
    (hp : isValidPrefixB g cfg p = true)
    (hpos : 0 < resolvedEntropyBits g cfg)
    (hdvd : 8 ∣ resolvedEntropyBits g cfg)
    (hA : (resolvedAlphabet g cfg).length = 32)
    (hfix : ∀ a ∈ resolvedAlphabet g cfg, a.toLower = a)
    (hsepP : resolvedSeparator g cfg ∉ applyCase (resolvedCase g cfg) p)
    (hsepA : (resolvedSeparator g cfg).toLower ∉ resolvedAlphabet g cfg) :
    ∃ raw, generate rb g cfg (some p) =
        Except.ok (applyCase (resolvedCase g cfg) p ++
          resolvedSeparator g cfg :: raw) ∧
      parse g cfg (JsValue.str (applyCase (resolvedCase g cfg) p ++
          resolvedSeparator g cfg :: raw)) =
        Except.ok {
          pfx := some (applyCase (resolvedCase g cfg) p)
          id := raw
          full := applyCase (resolvedCase g cfg) p ++
            resolvedSeparator g cfg :: raw } ∧
      isValidRawId g cfg raw = true := by
  obtain ⟨enc, heq, hlen, hmem⟩ := generateRaw_spec rb g cfg (hrb _) hA
  obtain ⟨k, hk⟩ := hdvd
  have hrawlen : (applyCase (resolvedCase g cfg) enc).length =
      (8 * ((resolvedEntropyBits g cfg + 7) / 8) + 4) / 5 := by
    rw [applyCase_length, hlen]
  have hrawmem : ∀ c ∈ applyCase (resolvedCase g cfg) enc,
      c.toLower ∈ resolvedAlphabet g cfg :=
    applyCase_toLower_mem _ _ _ hfix hmem
  have hvalid : isValidRawId g cfg (applyCase (resolvedCase g cfg) enc) = true :=
    isValidRawId_eq_true g cfg _ (by rw [hrawlen]; omega) (by rw [hrawlen]; omega)
      (by rw [hrawlen]; omega) hrawmem
  have hsepRaw : resolvedSeparator g cfg ∉ applyCase (resolvedCase g cfg) enc :=
    fun hin => hsepA (hrawmem _ hin)
  have hp0 : p.length ≠ 0 := isValidPrefixB_ne_nil g cfg p hp
  have hgen : generate rb g cfg (some p) =
      Except.ok (applyCase (resolvedCase g cfg) p ++
        resolvedSeparator g cfg :: applyCase (resolvedCase g cfg) enc) := by
    simp [generate, hp, heq, hp0]
  have hfull0 : ¬ (applyCase (resolvedCase g cfg) p ++
      resolvedSeparator g cfg :: applyCase (resolvedCase g cfg) enc).length = 0 := by
    simp
  have hsplit : splitChar (resolvedSeparator g cfg)
      (applyCase (resolvedCase g cfg) p ++
        resolvedSeparator g cfg :: applyCase (resolvedCase g cfg) enc) =
      [applyCase (resolvedCase g cfg) p, applyCase (resolvedCase g cfg) enc] :=
    splitChar_pair _ _ _ hsepP hsepRaw
  have hparse : parse g cfg (JsValue.str (applyCase (resolvedCase g cfg) p ++
      resolvedSeparator g cfg :: applyCase (resolvedCase g cfg) enc)) =
      Except.ok {
        pfx := some (applyCase (resolvedCase g cfg) p)
        id := applyCase (resolvedCase g cfg) enc
        full := applyCase (resolvedCase g cfg) p ++
          resolvedSeparator g cfg :: applyCase (resolvedCase g cfg) enc } := by
    simp only [parse, if_neg hfull0]
    rw [hsplit]
    simp [hvalid]
  exact ⟨applyCase (resolvedCase g cfg) enc, hgen, hparse, hvalid⟩

/-- C4, witness: the prefix `'USER'` with the default configuration
round-trips through `generate` and `parse`. -/
theorem c4_prefix_roundtrip_witness :
    ∃ raw, generate rbZero DEFAULT_CONFIG emptyConfig
        (some ['U', 'S', 'E', 'R']) =
        Except.ok (applyCase (resolvedCase DEFAULT_CONFIG emptyConfig)
          ['U', 'S', 'E', 'R'] ++
          resolvedSeparator DEFAULT_CONFIG emptyConfig :: raw) ∧
      parse DEFAULT_CONFIG emptyConfig
        (JsValue.str (applyCase (resolvedCase DEFAULT_CONFIG emptyConfig)
          ['U', 'S', 'E', 'R'] ++
          resolvedSeparator DEFAULT_CONFIG emptyConfig :: raw)) =
        Except.ok {
          pfx := some (applyCase (resolvedCase DEFAULT_CONFIG emptyConfig)
            ['U', 'S', 'E', 'R'])
          id := raw
          full := applyCase (resolvedCase DEFAULT_CONFIG emptyConfig)
            ['U', 'S', 'E', 'R'] ++
            resolvedSeparator DEFAULT_CONFIG emptyConfig :: raw } ∧
      isValidRawId DEFAULT_CONFIG emptyConfig raw = true :=
  c4_prefix_roundtrip DEFAULT_CONFIG emptyConfig rbZero ['U', 'S', 'E', 'R']
    (fun n => by simp [rbZero]) (by decide) (by decide) (by decide) (by decide)
    (by decide) (by decide) (by decide)

/-- C6: `parse` rejects non-string and empty inputs with distinct reasons;
splitting the input on the resolved separator, one part means the whole
input is taken as the raw id (returned as both `id` and `full`) when
raw-valid, two parts mean the first is the prefix (with no prefix-regex
check) and the second the raw id, and three or more parts throw
`'ID contains too many separators'`. -/
theorem c6_parse_cases (g cfg : SparkIdConfig) (s : List Char) :
    parse g cfg JsValue.nonString =
      Except.error (SparkIdErr.invalidIdError IdErrReason.notAString) ∧
    parse g cfg (JsValue.str []) =
      Except.error (SparkIdErr.invalidIdError IdErrReason.emptyId) ∧
    IdErrReason.notAString ≠ IdErrReason.emptyId ∧
    (s ≠ [] →
      ((splitChar (resolvedSeparator g cfg) s).length = 1 →
        (isValidRawId g cfg s = true →
          parse g cfg (JsValue.str s) =
            Except.ok { pfx := none, id := s, full := s }) ∧
        (isValidRawId g cfg s = false →
          parse g cfg (JsValue.str s) =
            Except.error (SparkIdErr.invalidIdError IdErrReason.invalidFormat))) ∧
      (∀ q theId, splitChar (resolvedSeparator g cfg) s = [q, theId] →
        (isValidRawId g cfg theId = true →
          parse g cfg (JsValue.str s) =
            Except.ok { pfx := some q, id := theId, full := s }) ∧
        (isValidRawId g cfg theId = false →
          parse g cfg (JsValue.str s) =
            Except.error (SparkIdErr.invalidIdError IdErrReason.invalidFormat))) ∧
      (3 ≤ (splitChar (resolvedSeparator g cfg) s).length →
        parse g cfg (JsValue.str s) =
          Except.error (SparkIdErr.invalidIdError IdErrReason.tooManySeparators))) := by
  have hs0 : ∀ t : List Char, t ≠ [] → ¬ t.length = 0 := by
    intro t ht h
    exact ht (List.length_eq_zero.1 h)
  refine ⟨rfl, rfl, by decide, ?_⟩
  intro hs
  refine ⟨?_, ?_, ?_⟩
  · intro h1
    obtain ⟨q, hq⟩ : ∃ q, splitChar (resolvedSeparator g cfg) s = [q] := by
      cases hsp : splitChar (resolvedSeparator g cfg) s with
      | nil => exact absurd hsp (splitChar_ne_nil _ _)
      | cons a l =>
        cases l with
        | nil => exact ⟨a, rfl⟩
        | cons b m => rw [hsp] at h1; simp at h1
    have hqs := splitChar_singleton _ _ _ hq
    rw [hqs] at hq
    constructor <;> intro hv <;>
      · simp only [parse, if_neg (hs0 s hs)]
        rw [hq]
        simp [hv]
  · intro q theId hpq
    constructor <;> intro hv <;>
      · simp only [parse, if_neg (hs0 s hs)]
        rw [hpq]
        simp [hv]
  · intro h3
    cases hsp : splitChar (resolvedSeparator g cfg) s with
    | nil => exact absurd hsp (splitChar_ne_nil _ _)
    | cons a l =>
      cases l with
      | nil => rw [hsp] at h3; simp at h3
      | cons b m =>
        cases m with
        | nil => rw [hsp] at h3; simp at h3
        | cons c t =>
          simp only [parse, if_neg (hs0 s hs)]
          rw [hsp]

/-- C6, witness: with the default separator `'_'`, the input `'-_' + 14
y's` splits into two parts whose first part `'-'` would fail the prefix
regex, yet `parse` succeeds and returns it as the prefix. -/
theorem c6_parse_cases_witness :
    parse DEFAULT_CONFIG emptyConfig (JsValue.str ('-' :: '_' :: List.replicate 14 'y')) =
      Except.ok {
        pfx := some ['-']
        id := List.replicate 14 'y'
        full := '-' :: '_' :: List.replicate 14 'y' } := by
  have h := (c6_parse_cases DEFAULT_CONFIG emptyConfig
    ('-' :: '_' :: List.replicate 14 'y')).2.2.2 (by decide)
  exact (h.2.1 ['-'] (List.replicate 14 'y') (by decide)).1 (by decide)

/-- C7: an alphabet of the wrong length is accepted by `configure` (stored
verbatim, no validation at configuration time), but `base32Encode` — and
hence `generateRaw` and `generate` — throws `INVALID_ALPHABET` carrying the
observed length whenever the resolved alphabet's length differs from 32, and
succeeds when the length is exactly 32. -/
theorem c7_lazy_alphabet (g cfg : SparkIdConfig) (buffer : List Nat)
    (badA : List Char) (rb : Nat → List Nat) :
    (configure g { emptyConfig with alphabet := some badA }).alphabet =
      some badA ∧
    (badA.length ≠ 32 →
      base32Encode buffer badA =
        Except.error (SparkIdErr.invalidAlphabet badA.length)) ∧
    (badA.length = 32 → ∃ s, base32Encode buffer badA = Except.ok s) ∧
    ((resolvedAlphabet g cfg).length ≠ 32 →
      generateRaw rb g cfg =
        Except.error (SparkIdErr.invalidAlphabet (resolvedAlphabet g cfg).length) ∧
      generate rb g cfg none =
        Except.error (SparkIdErr.invalidAlphabet (resolvedAlphabet g cfg).length)) := by
  refine ⟨by simp [configure, emptyConfig], ?_, ?_, ?_⟩
  · intro h
    simp [base32Encode, h]
  · intro h
    have he : base32Encode buffer badA =
        Except.ok (encodeLoop badA buffer 0 0 []) := by
      simp [base32Encode, h]
    exact ⟨_, he⟩
  · intro h
    have hg : generateRaw rb g cfg =
        Except.error (SparkIdErr.invalidAlphabet (resolvedAlphabet g cfg).length) := by
      simp [generateRaw, base32Encode, h]
    exact ⟨hg, by simp [generate, hg]⟩

/-- C7, witness: a 1-character alphabet is stored by `configure` untouched,
`base32Encode` rejects it with the observed length 1, `generateRaw` under
that per-call override throws the same error, and the 32-character default
alphabet encodes without error. -/
theorem c7_lazy_alphabet_witness :
    (configure DEFAULT_CONFIG { emptyConfig with alphabet := some ['a'] }).alphabet =
      some ['a'] ∧
    base32Encode [0] ['a'] = Except.error (SparkIdErr.invalidAlphabet 1) ∧
    (∃ s, base32Encode [0] ("yvndrfg9ejkmcpqxwt2uwxsza345h769".toList) =
      Except.ok s) ∧
    generateRaw rbZero DEFAULT_CONFIG { alphabet := some ['a'] } =
      Except.error (SparkIdErr.invalidAlphabet 1) := by
  obtain ⟨h1, h2, -, h4⟩ := c7_lazy_alphabet DEFAULT_CONFIG
    { alphabet := some ['a'] } [0] ['a'] rbZero
  obtain ⟨-, -, h3, -⟩ := c7_lazy_alphabet DEFAULT_CONFIG emptyConfig [0]
    ("yvndrfg9ejkmcpqxwt2uwxsza345h769".toList) rbZero
  exact ⟨h1, h2 (by decide), h3 (by decide), (h4 (by decide)).1⟩

/-- C8: `generate`, `parse` and `isValidRawId` with a per-call override
return the global configuration unchanged (a subsequent `getConfig` sees the
prior values), and `getConfigValue` resolves each key independently:
per-call value if present, else global value, else the fixed default. -/
theorem c8_config_layering {α : Type} (v w : α) (d : Option α)
    (g : SparkIdConfig) (rb : Nat → List Nat) (pfx : Option (List Char))
    (cfg : SparkIdConfig) (input : JsValue) (rawId : List Char) :
    (generateS rb g pfx cfg).2 = g ∧
    (parseS g input cfg).2 = g ∧
    (isValidRawIdS g rawId cfg).2 = g ∧
    getConfig (parseS g input cfg).2 = getConfig g ∧
    getConfigValue (some v) (some w) d = some v ∧
    getConfigValue (some v) none d = some v ∧
    getConfigValue none (some w) d = some w ∧
    getConfigValue none none d = d :=
  ⟨rfl, rfl, rfl, rfl, rfl, rfl, rfl, rfl⟩

/-- C9, counterexample: with resolved `entropyBits = 0` the generator draws
zero bytes and encodes the empty string, so a constructed id *is* the empty
string — both with a supplied empty id and with no id at all. -/
theorem c9_counterexample :
    secureIdMk rbZero DEFAULT_CONFIG { entropyBits := some 0 } (some []) none =
      Except.ok { id := [], pfx := none, full := [] } ∧
    secureIdMk rbZero DEFAULT_CONFIG { entropyBits := some 0 } none none =
      Except.ok { id := [], pfx := none, full := [] } := by
  decide

/-- C9, amended: constructing with a supplied empty id behaves exactly as if
the id were omitted (a fresh raw id is generated), and — provided the
resolved `entropyBits` is positive and the resolved alphabet has 32
characters — the id field of a constructed `SecureId` is never empty. -/
theorem c9_empty_id_generates (rb : Nat → List Nat) (g cfg : SparkIdConfig)
    (pfx : Option (List Char)) (idArg : Option (List Char))
    (hrb : ∀ n, (rb n).length = n)
    (hpos : 0 < resolvedEntropyBits g cfg)
    (hA : (resolvedAlphabet g cfg).length = 32) :
    secureIdMk rb g cfg (some []) pfx = secureIdMk rb g cfg none pfx ∧
    ∀ obj, secureIdMk rb g cfg idArg pfx = Except.ok obj → obj.id ≠ [] := by
  obtain ⟨enc, heq, hlen, hmem⟩ := generateRaw_spec rb g cfg (hrb _) hA
  have hgen : ∀ s, generateRaw rb g cfg = Except.ok s → s ≠ [] := by
    intro s hs h0
    rw [heq] at hs
    have henc : applyCase (resolvedCase g cfg) enc = s := by
      injection hs
    rw [h0] at henc
    have := applyCase_length (resolvedCase g cfg) enc
    rw [henc] at this
    simp at this
    omega
  have hbody : ∀ obj pf, secureIdMkBody rb g cfg idArg pf = Except.ok obj →
      obj.id ≠ [] := by
    have hfmt : ∀ (theId : List Char) (fm : Option (List Char))
        (obj : SecureIdObj),
        ((match fm with
          | some f =>
            Except.ok { id := theId, pfx := some f, full := f ++ resolvedSeparator g cfg :: theId }
          | none =>
            Except.ok { id := theId, pfx := none, full := theId }) :
            Except SparkIdErr SecureIdObj) =
          Except.ok obj → obj.id = theId := by
      intro theId fm obj hm
      rcases fm with _ | f <;> simp at hm <;> rw [← hm]
    intro obj pf hobj
    simp only [secureIdMkBody] at hobj
    rcases idArg with _ | l
    · cases hr : generateRaw rb g cfg with
      | error e => rw [hr] at hobj; simp at hobj
      | ok s =>
        rw [hr] at hobj
        rw [hfmt s _ obj hobj]
        exact hgen s hr
    · by_cases hl : l.length = 0
      · simp only [hl, if_pos rfl] at hobj
        cases hr : generateRaw rb g cfg with
        | error e => rw [hr] at hobj; simp at hobj
        | ok s =>
          rw [hr] at hobj
          rw [hfmt s _ obj hobj]
          exact hgen s hr
      · simp only [if_neg hl] at hobj
        rw [hfmt l _ obj hobj]
        intro h
        rw [h] at hl
        simp at hl
  constructor
  · rcases pfx with _ | q
    · simp [secureIdMk, secureIdMkBody]
    · by_cases hq : isValidPrefixB g cfg q <;> simp [secureIdMk, secureIdMkBody, hq]
  · intro obj hobj
    rcases pfx with _ | q
    · exact hbody obj none hobj
    · simp only [secureIdMk] at hobj
      by_cases hq : isValidPrefixB g cfg q
      · rw [if_pos hq] at hobj
        exact hbody obj (some q) hobj
      · rw [if_neg hq] at hobj
        simp at hobj

/-- C9, witness: with the default configuration, a supplied empty id is
replaced by a generated one and the constructed id is non-empty. -/
theorem c9_empty_id_generates_witness :
    secureIdMk rbZero DEFAULT_CONFIG emptyConfig (some []) none =
      secureIdMk rbZero DEFAULT_CONFIG emptyConfig none none ∧
    ∀ obj, secureIdMk rbZero DEFAULT_CONFIG emptyConfig (some []) none =
      Except.ok obj → obj.id ≠ [] :=
  c9_empty_id_generates rbZero DEFAULT_CONFIG emptyConfig none (some [])
    (fun n => by simp [rbZero]) (by decide) (by decide)

/-- C10, counterexample: with separator `'y'` (an alphabet character) and 5
entropy bits, the raw id `'y'` is valid but `separator + 'y' = 'yy'` splits
into three empty-ish parts, so `parse` throws and `isValid` is false instead
of accepting an empty prefix. -/
theorem c10_counterexample :
    isValidRawId DEFAULT_CONFIG { separator := some 'y', entropyBits := some 5 }
      ['y'] = true ∧
    resolvedSeparator DEFAULT_CONFIG { separator := some 'y', entropyBits := some 5 } =
      'y' ∧
    parse DEFAULT_CONFIG { separator := some 'y', entropyBits := some 5 }
      (JsValue.str ['y', 'y']) =
      Except.error (SparkIdErr.invalidIdError IdErrReason.tooManySeparators) ∧
    isValid DEFAULT_CONFIG { separator := some 'y', entropyBits := some 5 }
      (JsValue.str ['y', 'y']) = false := by
  decide

/-- C10, amended: for every raw-valid string `r` that does not contain the
resolved separator, `parse(separator + r)` succeeds with the empty string as
prefix and `r` as id, `isValid(separator + r)` holds, and yet the empty
prefix is rejected by prefix validation — such strings cannot be produced by
generation. -/
theorem c10_empty_prefix_parse (g cfg : SparkIdConfig) (r : List Char)
    (hr : isValidRawId g cfg r = true)
    (hsep : resolvedSeparator g cfg ∉ r) :
    parse g cfg (JsValue.str (resolvedSeparator g cfg :: r)) =
      Except.ok {
        pfx := some []
        id := r
        full := resolvedSeparator g cfg :: r } ∧
    isValid g cfg (JsValue.str (resolvedSeparator g cfg :: r)) = true ∧
    isValidPrefixB g cfg [] = false := by
  have hsplit : splitChar (resolvedSeparator g cfg)
      (resolvedSeparator g cfg :: r) = [[], r] := by
    have h := splitChar_pair (resolvedSeparator g cfg) [] r (by simp) hsep
    simpa using h
  have hparse : parse g cfg (JsValue.str (resolvedSeparator g cfg :: r)) =
      Except.ok {
        pfx := some []
        id := r
        full := resolvedSeparator g cfg :: r } := by
    simp only [parse, if_neg (by simp : ¬ (resolvedSeparator g cfg :: r).length = 0)]
    rw [hsplit]
    simp [hr]
  refine ⟨hparse, ?_, by simp [isValidPrefixB]⟩
  simp [isValid, hparse, hr]

/-- C10, witness: the default separator `'_'` prepended to a raw-valid
14-character id parses with an empty prefix and validates, while the empty
prefix itself fails prefix validation. -/
theorem c10_empty_prefix_parse_witness :
    parse DEFAULT_CONFIG emptyConfig
      (JsValue.str (resolvedSeparator DEFAULT_CONFIG emptyConfig ::
        List.replicate 14 'y')) =
      Except.ok {
        pfx := some []
        id := List.replicate 14 'y'
        full := resolvedSeparator DEFAULT_CONFIG emptyConfig ::
          List.replicate 14 'y' } ∧
    isValid DEFAULT_CONFIG emptyConfig
      (JsValue.str (resolvedSeparator DEFAULT_CONFIG emptyConfig ::
        List.replicate 14 'y')) = true ∧
    isValidPrefixB DEFAULT_CONFIG emptyConfig [] = false :=
  c10_empty_prefix_parse DEFAULT_CONFIG emptyConfig (List.replicate 14 'y')
    (by decide) (by decide)
